import Mathlib

/-!
Verification of the `uniqueVertex` vertex-store layer (package `state`,
file embedded in `src/snow/networking/router/metrics.go`) of this
repository.  The Go code maintains a lazily-hydrated, deduplicated handle
(`uniqueVertex`) over a vertex ID backed by a persistent store, and
finalizes consensus decisions (`Accept`/`Reject`) by persisting status and
frontier (edge set) changes.

The shallow embedding below translates the source functions
(`refresh`, `Evict`, `storeAndUpdateStatus`, `setStatus`, `Accept`,
`Reject`, `Status`, `Parents`, `Height`, `Txs`, `Bytes`, `Verify`)
into pure Lean functions over an explicit `World` record holding the
serializer's collaborators: the persistent store's pending view
(reads observe puts issued since the last commit, as with a versioned DB),
the durable committed snapshot, the in-memory frontier edge set, the
identity cache (de-duplicator), the parser and the validator.  Each
operation also returns a log of I/O `Event`s so that frame properties
("performs no store write", "calls refresh first") are statable.
A `res = none` result models a Go nil-pointer panic.  The `fmt.Printf`
debug lines of the source have no state effect and are not modelled.
-/

namespace VertexStore

/-- Vertex identifiers (`ids.ID`), abstracted as naturals. -/
abbrev ID := Nat

/-- Raw byte strings, abstracted as lists of naturals. -/
abbrev Bytes := List Nat

/-- `choices.Status`.  The Go zero value is `Unknown`. -/
inductive Status
  | Unknown
  | Processing
  | Rejected
  | Accepted
  deriving DecidableEq, Repr, Inhabited

/-- Errors surfaced by the collaborators (`error` values in Go);
`Option Err` models a Go `error` with `none` for `nil`. -/
inductive Err
  | parse (code : Nat)
  | invalid (code : Nat)
  | commitFailed
  deriving DecidableEq, Repr

/-- The inner `vertex` body: parent IDs, height, transactions, and the
serialized bytes returned by its `Bytes()` method. -/
structure Vertex where
  parentIDs : List ID
  height : Nat
  txs : List Nat
  bytes : Bytes
  deriving DecidableEq, Repr, Inhabited

/-- The `&vertex{}` empty placeholder installed by `refresh` (Go zero value). -/
def Vertex.empty : Vertex := { parentIDs := [], height := 0, txs := [], bytes := [] }

/-- `vertexState`: the mutable state owned by a canonical handle.  The Go
zero value (`&vertexState{}`) is `default`.  `parents` caches the lazily
materialized parent handles; since a materialized parent handle is
determined by its ID (serializer plus `vtxID` only), we record the IDs.
A Go nil slice and an empty slice are both `[]` (only lengths are
compared by the source). -/
structure VertexState where
  unique : Bool := false
  verified : Bool := false
  validity : Option Err := none
  vtx : Option Vertex := none
  status : Status := .Unknown
  parents : List ID := []
  txs : List Nat := []
  deriving DecidableEq, Repr, Inhabited

/-- `uniqueVertex`: id, optional raw bytes, optional state (`v` may be nil). -/
structure UniqueVertex where
  vtxID : ID
  bytes : Option Bytes
  v : Option VertexState
  deriving DecidableEq, Repr

/-- The handle's state, defaulting like Go's zero value (only read after
`refresh` guarantees `v` non-nil, or under an explicit case split). -/
def UniqueVertex.st (h : UniqueVertex) : VertexState := h.v.getD default

/-- I/O events performed against the serializer's collaborators. -/
inductive Event
  | refreshCall
  | cacheResolve (i : ID)
  | readStatus (i : ID)
  | readVertex (i : ID)
  | writeStatus (i : ID) (s : Status)
  | writeVertex (i : ID) (vo : Option Vertex)
  | writeEdge (e : List ID)
  | commit (ok : Bool)
  deriving DecidableEq, Repr

/-- The serializer's collaborators and the persistent store.
`storeStatus`/`storeVertex`/`edgeDB` are the pending (post-put) view that
reads observe; `durStatus`/`durVertex`/`durEdge` are the durable snapshot,
updated only by a successful `db.Commit()`.  `edge` is the in-memory
`serializer.edge` set (as a duplicate-free list).  `cacheOther i` is the
state of a distinct canonical handle the de-duplicator would return for
`i` (`none`: `UniqueVertex` returns the caller itself).  `commits` is the
oracle of outcomes for successive `db.Commit()` calls (exhausted: success). -/
structure World where
  storeStatus : ID → Status
  storeVertex : ID → Option Vertex
  edge : List ID
  edgeDB : List ID
  durStatus : ID → Status
  durVertex : ID → Option Vertex
  durEdge : List ID
  cacheOther : ID → Option VertexState
  parseFn : Bytes → Except Err Vertex
  verifyFn : Vertex → Option Err
  commits : List Bool

/-- Result of one operation: `res = none` models a nil-pointer panic;
`h`/`w` are the handle and world at return (or panic) time, `ev` the I/O log. -/
structure OpRes (α : Type) where
  res : Option α
  h : UniqueVertex
  w : World
  ev : List Event

/-- Point update of a status map. -/
def updSt (f : ID → Status) (i : ID) (s : Status) : ID → Status :=
  fun j => if j = i then s else f j

/-- Point update of a vertex map. -/
def updVtx (f : ID → Option Vertex) (i : ID) (vo : Option Vertex) : ID → Option Vertex :=
  fun j => if j = i then vo else f j

/-- `ids.Set.Add`: insert if absent. -/
def addId (l : List ID) (i : ID) : List ID := if i ∈ l then l else l ++ [i]

/-- `ids.Set.Remove`. -/
def removeId (l : List ID) (i : ID) : List ID := l.filter (fun j => j != i)

/-- `storeAndUpdateStatus` (source lines 231-239): `SetVertex(vtx.v.vtx)`;
then if the stored status is `Unknown`, persist `Processing` and set it in
memory, else adopt the stored status.  (The Go comment "Assumes
vtx.v.vtx != nil" notwithstanding, the parse-error path reaches this with
a nil inner vertex; the write then stores `none`.) -/
def storeAndUpdateStatus (h : UniqueVertex) (st : VertexState) (w : World)
    (ev : List Event) : OpRes Unit :=
  if w.storeStatus h.vtxID = Status.Unknown then
    { res := some ()
      h := { h with v := some { st with status := .Processing } }
      w := { w with
              storeVertex := updVtx w.storeVertex h.vtxID st.vtx
              storeStatus := updSt w.storeStatus h.vtxID .Processing }
      ev := ev ++ [.writeVertex h.vtxID st.vtx, .readStatus h.vtxID,
                   .writeStatus h.vtxID .Processing] }
  else
    { res := some ()
      h := { h with v := some { st with status := w.storeStatus h.vtxID } }
      w := { w with storeVertex := updVtx w.storeVertex h.vtxID st.vtx }
      ev := ev ++ [.writeVertex h.vtxID st.vtx, .readStatus h.vtxID] }

/-- The `switch` block of `refresh` (source lines 182-205).  `st` is the
post-resolution state, `prev` is `prevVtx`.  Note the source tests
`err != nil` on `parseVertex` and takes the *store* branch on error and
the *placeholder* branch on success (on error `parseVertex` yields a nil
vertex, so `v.vtx` becomes `none` there). -/
def refreshBody (h : UniqueVertex) (st : VertexState) (prev : Option Vertex)
    (w : World) (ev : List Event) : OpRes Unit :=
  match st.vtx, prev, h.bytes with
  | none, none, some b =>
    (match w.parseFn b with
     | .error _ => storeAndUpdateStatus h { st with vtx := none } w ev
     | .ok _ =>
       { res := some ()
         h := { h with v := some { st with vtx := some Vertex.empty,
                                           validity := none, verified := true } }
         w := w
         ev := ev })
  | none, none, none =>
    { res := some ()
      h := { h with v := some { st with vtx := w.storeVertex h.vtxID } }
      w := w
      ev := ev ++ [.readVertex h.vtxID] }
  | none, some pv, _ =>
    { res := some ()
      h := { h with v := some { st with vtx := some pv } }
      w := w
      ev := ev }
  | some _, _, _ =>
    { res := some (), h := { h with v := some st }, w := w, ev := ev }

/-- The non-unique arm of `refresh` (source lines 163-206): ask the
de-duplicator; if it returns the caller, load the status from the store
and mark unique; otherwise adopt the canonical handle's state, keeping
the caller's own bytes (which live on the handle, not the state). -/
def refreshResolve (h : UniqueVertex) (st : VertexState) (w : World) : OpRes Unit :=
  match w.cacheOther h.vtxID with
  | none =>
    refreshBody h { st with status := w.storeStatus h.vtxID, unique := true } st.vtx w
      [.refreshCall, .cacheResolve h.vtxID, .readStatus h.vtxID]
  | some other =>
    refreshBody h other st.vtx w [.refreshCall, .cacheResolve h.vtxID]

/-- `refresh` (source lines 156-213): allocate a zero state if `v` is nil,
then reconcile with the cache and store unless already unique. -/
def refresh (h : UniqueVertex) (w : World) : OpRes Unit :=
  match h.v with
  | none => refreshResolve h default w
  | some st =>
    if st.unique then
      { res := some (), h := { h with v := some st }, w := w, ev := [.refreshCall] }
    else refreshResolve h st w

/-- `Evict` (source lines 215-219): if `v` is non-nil, clear `unique`. -/
def evictOp (h : UniqueVertex) (w : World) : OpRes Unit :=
  { res := some ()
    h := { h with v := h.v.map (fun st => { st with unique := false }) }
    w := w
    ev := [] }

/-- The body of `setStatus` after the initial `refresh` (source lines 243-246). -/
def ssAfter (s : Status) (r : OpRes Unit) : OpRes Unit :=
  if r.h.st.status = s then r
  else
    { res := some ()
      h := { r.h with v := some { r.h.st with status := s } }
      w := { r.w with storeStatus := updSt r.w.storeStatus r.h.vtxID s }
      ev := r.ev ++ [.writeStatus r.h.vtxID s] }

/-- `setStatus` (source lines 241-247). -/
def setStatus (s : Status) (h : UniqueVertex) (w : World) : OpRes Unit :=
  ssAfter s (refresh h w)

/-- `Status()` (source line 278): refresh, then read `v.status`. -/
def statusOp (h : UniqueVertex) (w : World) : OpRes Status :=
  let r := refresh h w
  { res := some r.h.st.status, h := r.h, w := r.w, ev := r.ev }

/-- The body of `Parents()` after the initial `refresh` (source lines
283-293): if the cached list's length differs from the body's parent-ID
count, re-materialize one handle per parent ID and cache them; return the
cached list.  Reading `v.vtx.parentIDs` with a nil inner vertex panics. -/
def pAfter (r : OpRes Unit) : OpRes (List ID) :=
  match r.h.st.vtx with
  | none => { res := none, h := r.h, w := r.w, ev := r.ev }
  | some vx =>
    if r.h.st.parents.length = vx.parentIDs.length then
      { res := some r.h.st.parents, h := r.h, w := r.w, ev := r.ev }
    else
      { res := some vx.parentIDs
        h := { r.h with v := some { r.h.st with parents := vx.parentIDs } }
        w := r.w
        ev := r.ev }

/-- `Parents()` (source lines 280-294). -/
def parentsOp (h : UniqueVertex) (w : World) : OpRes (List ID) :=
  pAfter (refresh h w)

/-- `Height()` (source lines 296-300). -/
def heightOp (h : UniqueVertex) (w : World) : OpRes Nat :=
  let r := refresh h w
  match r.h.st.vtx with
  | none => { res := none, h := r.h, w := r.w, ev := r.ev }
  | some vx => { res := some vx.height, h := r.h, w := r.w, ev := r.ev }

/-- `Txs()` (source lines 302-313). -/
def txsOp (h : UniqueVertex) (w : World) : OpRes (List Nat) :=
  let r := refresh h w
  match r.h.st.vtx with
  | none => { res := none, h := r.h, w := r.w, ev := r.ev }
  | some vx =>
    if vx.txs.length = r.h.st.txs.length then
      { res := some r.h.st.txs, h := r.h, w := r.w, ev := r.ev }
    else
      { res := some vx.txs
        h := { r.h with v := some { r.h.st with txs := vx.txs } }
        w := r.w
        ev := r.ev }

/-- `Bytes()` (source lines 315-321).  Note: no `refresh`; reads
`vtx.bytes`, else `vtx.v.vtx.Bytes()` (panicking on nil `v` or nil body). -/
def bytesOp (h : UniqueVertex) (w : World) : OpRes Bytes :=
  match h.bytes with
  | some b => { res := some b, h := h, w := w, ev := [] }
  | none =>
    match h.v with
    | none => { res := none, h := h, w := w, ev := [] }
    | some st =>
      match st.vtx with
      | none => { res := none, h := h, w := w, ev := [] }
      | some vx => { res := some vx.bytes, h := h, w := w, ev := [] }

/-- `Verify()` (source lines 323-331).  Note: no `refresh`; returns the
cached `validity` when `verified`, else runs the inner vertex's validator
and caches the result (panicking on nil `v`, or nil body when unverified). -/
def verifyOp (h : UniqueVertex) (w : World) : OpRes (Option Err) :=
  match h.v with
  | none => { res := none, h := h, w := w, ev := [] }
  | some st =>
    if st.verified then
      { res := some st.validity, h := h, w := w, ev := [] }
    else
      match st.vtx with
      | none => { res := none, h := h, w := w, ev := [] }
      | some vx =>
        { res := some (w.verifyFn vx)
          h := { h with v := some { st with validity := w.verifyFn vx, verified := true } }
          w := w
          ev := [] }

/-- Result of `db.Commit()`. -/
structure CRes where
  err : Option Err
  w : World
  ev : List Event

/-- `db.Commit()`: on success, the pending puts become durable as one unit;
on failure, the durable snapshot is untouched (and the error returned). -/
def commitDB (w : World) : CRes :=
  if w.commits.headD true then
    { err := none
      w := { w with
              commits := w.commits.tail
              durStatus := w.storeStatus
              durVertex := w.storeVertex
              durEdge := w.edgeDB }
      ev := [.commit true] }
  else
    { err := some .commitFailed
      w := { w with commits := w.commits.tail }
      ev := [.commit false] }

/-- `Accept()` (source lines 251-266): `setStatus(Accepted)`; add own ID
to the in-memory edge set; remove every parent ID returned by `Parents()`
(which refreshes again); `SetEdge` with the resulting list; clear the
cached parent handles; `db.Commit()`. -/
def accept (h : UniqueVertex) (w : World) : OpRes (Option Err) :=
  let r := setStatus .Accepted h w
  let p := pAfter (refresh r.h { r.w with edge := addId r.w.edge r.h.vtxID })
  match p.res with
  | none => { res := none, h := p.h, w := p.w, ev := r.ev ++ p.ev }
  | some ps =>
    let e2 := ps.foldl removeId p.w.edge
    let c := commitDB { p.w with edge := e2, edgeDB := e2 }
    { res := some c.err
      h := { p.h with v := some { p.h.st with parents := [] } }
      w := c.w
      ev := r.ev ++ p.ev ++ [.writeEdge e2] ++ c.ev }

/-- `Reject()` (source lines 268-276): `setStatus(Rejected)`; clear the
cached parent handles; `db.Commit()`.  No frontier change. -/
def reject (h : UniqueVertex) (w : World) : OpRes (Option Err) :=
  let r := setStatus .Rejected h w
  let c := commitDB r.w
  { res := some c.err
    h := { r.h with v := some { r.h.st with parents := [] } }
    w := c.w
    ev := r.ev ++ c.ev }

/-! ### Operation traces

Machinery for the temporal claim about observable status sequences: the
operations named by the claim, a small-step runner collecting the statuses
returned by `Status()`, and the consensus lifecycle order on statuses. -/

/-- The lifecycle order: `Unknown ≤ Processing ≤ {Accepted | Rejected}`,
terminal states only below themselves.  A status sequence that is
pairwise `statusLe` never reverts and never crosses between `Accepted`
and `Rejected`. -/
def statusLe : Status → Status → Bool
  | .Unknown, _ => true
  | .Processing, .Processing => true
  | .Processing, .Accepted => true
  | .Processing, .Rejected => true
  | .Accepted, .Accepted => true
  | .Rejected, .Rejected => true
  | _, _ => false

/-- The operations named by the monotonicity claim. -/
inductive Op
  | refreshO
  | statusO
  | setStatusO (s : Status)
  | acceptO
  | rejectO
  deriving DecidableEq, Repr

/-- One operation applied to a handle; the result is the observation the
operation yields (`some s` for `Status()`), `none` inside `some` for
non-observing operations, and an outer `none` for a panic. -/
def step : Op → UniqueVertex → World → OpRes (Option Status)
  | .refreshO, h, w =>
    let r := refresh h w
    { res := some none, h := r.h, w := r.w, ev := r.ev }
  | .statusO, h, w =>
    let r := refresh h w
    { res := some (some r.h.st.status), h := r.h, w := r.w, ev := r.ev }
  | .setStatusO s, h, w =>
    let r := setStatus s h w
    { res := some none, h := r.h, w := r.w, ev := r.ev }
  | .acceptO, h, w =>
    let r := accept h w
    { res := r.res.map (fun _ => none), h := r.h, w := r.w, ev := r.ev }
  | .rejectO, h, w =>
    let r := reject h w
    { res := r.res.map (fun _ => none), h := r.h, w := r.w, ev := r.ev }

/-- Run a sequence of operations, collecting the observed statuses
(stopping at a panic). -/
def run : List Op → UniqueVertex → World → List Status
  | [], _, _ => []
  | op :: ops, h, w =>
    match (step op h w).res with
    | none => []
    | some none => run ops (step op h w).h (step op h w).w
    | some (some s) => s :: run ops (step op h w).h (step op h w).w

/-- Single-handle well-formedness: the de-duplicator holds no competing
canonical handle for this ID, and while the handle is unique its in-memory
status agrees with the store's pending view (re-established by every
status write in the source). -/
def Inv (h : UniqueVertex) (w : World) : Bool :=
  (w.cacheOther h.vtxID).isNone &&
    (match h.v with
     | none => true
     | some st => !st.unique || (st.status == w.storeStatus h.vtxID))

/-- The proviso of the amended monotonicity claim: no conflicting terminal
decision is issued (`Accept` while `Rejected`, `Reject` while `Accepted`),
and `setStatus` only advances along the lifecycle order. -/
def okOp (cur : Status) : Op → Bool
  | .acceptO => cur != .Rejected
  | .rejectO => cur != .Accepted
  | .setStatusO s => statusLe cur s
  | _ => true

/-- A trace whose every operation satisfies `okOp` at the state it runs in. -/
inductive OkTrace : UniqueVertex → World → List Op → Prop
  | nil (h : UniqueVertex) (w : World) : OkTrace h w []
  | cons {h : UniqueVertex} {w : World} {op : Op} {ops : List Op}
      (hok : okOp (w.storeStatus h.vtxID) op = true)
      (hrest : OkTrace (step op h w).h (step op h w).w ops) :
      OkTrace h w (op :: ops)

/-- What one well-formed step guarantees: the handle keeps its ID, the
invariant is preserved, and the stored status advances along `statusLe`. -/
def MonoStep (h : UniqueVertex) (w : World) (h2 : UniqueVertex) (w2 : World) : Prop :=
  h2.vtxID = h.vtxID ∧ Inv h2 w2 = true ∧
    statusLe (w.storeStatus h.vtxID) (w2.storeStatus h.vtxID) = true

/-- What `refresh` (and `setStatus`) establish, starting from a handle
satisfying `Inv` with no competing cache entry: ID preserved, cache map
untouched, the stored status only advanced along the lifecycle order (and
only at the handle's own ID), and a non-nil, unique state whose in-memory
status agrees with the store. -/
def RefreshPost (h : UniqueVertex) (w : World) (r : OpRes Unit) : Prop :=
  r.h.vtxID = h.vtxID ∧
  r.w.cacheOther = w.cacheOther ∧
  statusLe (w.storeStatus h.vtxID) (r.w.storeStatus h.vtxID) = true ∧
  (∀ j, j ≠ h.vtxID → r.w.storeStatus j = w.storeStatus j) ∧
  r.h.v = some r.h.st ∧
  r.h.st.unique = true ∧
  r.h.st.status = r.w.storeStatus h.vtxID

/-- The frontier edge set `Accept` computes for a handle with body `vx`:
own ID added, every parent ID removed. -/
def acceptEdgeSet (h : UniqueVertex) (w : World) (vx : Vertex) : List ID :=
  vx.parentIDs.foldl removeId (addId w.edge h.vtxID)

/-- The pending world `Accept` hands to `db.Commit()` when the status was
not yet Accepted: status write plus frontier update. -/
def acceptWrite (h : UniqueVertex) (w : World) (vx : Vertex) : World :=
  { w with
    storeStatus := updSt w.storeStatus h.vtxID .Accepted
    edge := acceptEdgeSet h w vx
    edgeDB := acceptEdgeSet h w vx }

/-- The pending world `Accept` hands to `db.Commit()` when the status was
already Accepted: frontier update only. -/
def acceptNoop (h : UniqueVertex) (w : World) (vx : Vertex) : World :=
  { w with
    edge := acceptEdgeSet h w vx
    edgeDB := acceptEdgeSet h w vx }

/-! ### Concrete fixtures

Worlds and handles used by the witnesses and counterexamples. -/

/-- A world with an empty store, empty frontier, no competing cache entry,
an always-failing parser, an always-succeeding validator, and successful
commits. -/
def emptyWorld : World :=
  { storeStatus := fun _ => .Unknown
    storeVertex := fun _ => none
    edge := []
    edgeDB := []
    durStatus := fun _ => .Unknown
    durVertex := fun _ => none
    durEdge := []
    cacheOther := fun _ => none
    parseFn := fun _ => .error (.parse 0)
    verifyFn := fun _ => none
    commits := [] }

/-- Body of the scenario vertex V: parents A = 0 and B = 1, height 5. -/
def vxV : Vertex := { parentIDs := [0, 1], height := 5, txs := [], bytes := [9] }

/-- State of the scenario handle V: unique, Processing, body known. -/
def stV : VertexState := { unique := true, vtx := some vxV, status := .Processing }

/-- The scenario handle V, ID 2. -/
def hV : UniqueVertex := ⟨2, none, some stV⟩

/-- Scenario world: A and B accepted, V processing, frontier `{A, B}`,
next commit succeeds. -/
def wV : World :=
  { emptyWorld with
    storeStatus := fun i => if i = 2 then .Processing else if i ≤ 1 then .Accepted else .Unknown
    durStatus := fun i => if i ≤ 1 then .Accepted else .Unknown
    edge := [0, 1]
    commits := [true] }

/-- Scenario world whose next commit fails. -/
def wVF : World := { wV with commits := [false] }

/-- Handle V after its first `Accept`: unique, Accepted, parent cache cleared. -/
def hV2 : UniqueVertex := ⟨2, none, some { stV with status := .Accepted, parents := [] }⟩

/-- World after V's first `Accept`: status persisted, frontier `{V}`. -/
def wV2 : World :=
  { emptyWorld with
    storeStatus := fun i => if i = 2 then .Accepted else if i ≤ 1 then .Accepted else .Unknown
    durStatus := fun i => if i ≤ 2 then .Accepted else .Unknown
    edge := [2]
    edgeDB := [2]
    durEdge := [2]
    commits := [true] }

/-- A unique handle (ID 5) already Rejected, with an empty parsed body. -/
def hR1 : UniqueVertex := ⟨5, none, some { unique := true, vtx := some Vertex.empty, status := .Rejected }⟩

/-- World recording ID 5 as Rejected. -/
def wR1 : World :=
  { emptyWorld with
    storeStatus := fun i => if i = 5 then .Rejected else .Unknown
    commits := [true] }

/-- A unique handle (ID 7) already Accepted, with an empty parsed body. -/
def hA1 : UniqueVertex := ⟨7, none, some { unique := true, vtx := some Vertex.empty, status := .Accepted }⟩

/-- World recording ID 7 as Accepted. -/
def wA1 : World :=
  { emptyWorld with
    storeStatus := fun i => if i = 7 then .Accepted else .Unknown
    commits := [true] }

/-- World recording ID 7 as Accepted whose next commit fails. -/
def wA1F : World := { wA1 with commits := [false] }

/-- A unique handle (ID 8) already Rejected, with an empty parsed body. -/
def hR2 : UniqueVertex := ⟨8, none, some { unique := true, vtx := some Vertex.empty, status := .Rejected }⟩

/-- World recording ID 8 as Rejected. -/
def wR2 : World :=
  { emptyWorld with
    storeStatus := fun i => if i = 8 then .Rejected else .Unknown
    commits := [true] }

/-- A unique handle (ID 6) in Processing with an empty parsed body, for
the monotone-trace witness. -/
def hW1 : UniqueVertex := ⟨6, none, some { unique := true, vtx := some Vertex.empty, status := .Processing }⟩

/-- World recording ID 6 as Processing. -/
def wW1 : World :=
  { emptyWorld with
    storeStatus := fun i => if i = 6 then .Processing else .Unknown
    commits := [true] }

/-- Witness trace: observe, accept, observe. -/
def opsW1 : List Op := [.statusO, .acceptO, .statusO]

/-- Bytes that `w3.parseFn` parses successfully. -/
def goodBytes : Bytes := [1]

/-- Bytes on which `w3.parseFn` fails. -/
def badBytes : Bytes := [2]

/-- The body `w3.parseFn` produces for `goodBytes`. -/
def parsedGood : Vertex := { parentIDs := [3], height := 7, txs := [4], bytes := [1] }

/-- World for the parse-branch evaluation: a parser that succeeds exactly
on `goodBytes`, and a store that already holds a body for ID 12. -/
def w3 : World :=
  { emptyWorld with
    parseFn := fun b => if b = goodBytes then .ok parsedGood else .error (.parse 1)
    storeVertex := fun i =>
      if i = 12 then some { parentIDs := [9], height := 2, txs := [], bytes := [2] } else none }

/-- Fresh handle (ID 11) constructed from well-formed bytes. -/
def h3g : UniqueVertex := ⟨11, some goodBytes, none⟩

/-- Fresh handle (ID 12) constructed from malformed bytes. -/
def h3b : UniqueVertex := ⟨12, some badBytes, none⟩

/-- Fresh handle (ID 13) with known bytes and nil state, never refreshed. -/
def hB : UniqueVertex := ⟨13, some [1, 2], none⟩

/-- A unique handle (ID 14) in Processing, for the `setStatus` frame witness. -/
def hT : UniqueVertex := ⟨14, none, some { unique := true, vtx := some Vertex.empty, status := .Processing }⟩

/-- World recording ID 14 as Processing. -/
def wT : World :=
  { emptyWorld with storeStatus := fun i => if i = 14 then .Processing else .Unknown }

/-! ### Basic lemmas -/

theorem statusLe_refl (s : Status) : statusLe s s = true := by
  cases s <;> rfl

theorem statusLe_trans {a b c : Status} (h1 : statusLe a b = true)
    (h2 : statusLe b c = true) : statusLe a c = true := by
  cases a <;> cases b <;> cases c <;> simp_all [statusLe]

theorem statusLe_unknown_left (s : Status) : statusLe .Unknown s = true := rfl

theorem statusLe_accepted_of_ne {s : Status} (h : s ≠ .Rejected) :
    statusLe s .Accepted = true := by
  cases s <;> simp_all [statusLe]

theorem statusLe_rejected_of_ne {s : Status} (h : s ≠ .Accepted) :
    statusLe s .Rejected = true := by
  cases s <;> simp_all [statusLe]

theorem st_of_v {h : UniqueVertex} {st : VertexState} (hv : h.v = some st) :
    h.st = st := by
  simp [UniqueVertex.st, hv]

theorem updSt_same (f : ID → Status) (i : ID) (s : Status) : updSt f i s i = s := by
  simp [updSt]

theorem updSt_other (f : ID → Status) {i j : ID} (s : Status) (hne : j ≠ i) :
    updSt f i s j = f j := by
  simp [updSt, hne]

theorem mem_addId {l : List ID} {i j : ID} : j ∈ addId l i ↔ (j ∈ l ∨ j = i) := by
  by_cases hmem : i ∈ l
  · simp only [addId, if_pos hmem]
    exact ⟨Or.inl, fun hj => hj.elim id (fun hji => hji ▸ hmem)⟩
  · simp [addId, if_neg hmem]

theorem addId_of_mem {l : List ID} {i : ID} (hmem : i ∈ l) : addId l i = l := by
  simp [addId, hmem]

theorem mem_removeId {l : List ID} {i j : ID} : j ∈ removeId l i ↔ (j ∈ l ∧ j ≠ i) := by
  simp [removeId, List.mem_filter]

theorem removeId_of_not_mem {l : List ID} {i : ID} (hmem : i ∉ l) : removeId l i = l := by
  apply List.filter_eq_self.mpr
  intro a ha
  simp only [bne_iff_ne, ne_eq]
  intro he
  exact hmem (he ▸ ha)

theorem mem_foldl_removeId (ps : List ID) (l : List ID) (j : ID) :
    j ∈ ps.foldl removeId l ↔ (j ∈ l ∧ j ∉ ps) := by
  induction ps generalizing l with
  | nil => simp
  | cons p ps ih =>
    simp only [List.foldl_cons, ih, mem_removeId, List.mem_cons]
    tauto

theorem foldl_removeId_of_disjoint {ps l : List ID} (hd : ∀ p ∈ ps, p ∉ l) :
    ps.foldl removeId l = l := by
  induction ps with
  | nil => rfl
  | cons p ps ih =>
    simp only [List.foldl_cons]
    rw [removeId_of_not_mem (hd p (by simp))]
    exact ih fun q hq => hd q (by simp [hq])

/-! ### Evaluation lemmas for operations on a unique handle -/

theorem refresh_of_unique {h : UniqueVertex} (w : World) {st : VertexState}
    (hv : h.v = some st) (hu : st.unique = true) :
    refresh h w = { res := some (), h := h, w := w, ev := [.refreshCall] } := by
  obtain ⟨i, b, v⟩ := h
  simp only at hv
  subst hv
  simp [refresh, hu]

theorem setStatus_of_unique_eq {h : UniqueVertex} {w : World} {st : VertexState} {s : Status}
    (hv : h.v = some st) (hu : st.unique = true) (heq : st.status = s) :
    setStatus s h w = { res := some (), h := h, w := w, ev := [.refreshCall] } := by
  simp [setStatus, refresh_of_unique w hv hu, ssAfter, st_of_v hv, heq]

theorem setStatus_of_unique_ne {h : UniqueVertex} {w : World} {st : VertexState} {s : Status}
    (hv : h.v = some st) (hu : st.unique = true) (hne : st.status ≠ s) :
    setStatus s h w =
      { res := some ()
        h := { h with v := some { st with status := s } }
        w := { w with storeStatus := updSt w.storeStatus h.vtxID s }
        ev := [.refreshCall, .writeStatus h.vtxID s] } := by
  simp [setStatus, refresh_of_unique w hv hu, ssAfter, st_of_v hv, hne]

theorem pAfter_of_state {h : UniqueVertex} {w : World} {st : VertexState} {vx : Vertex}
    {ev : List Event} (hv : h.v = some st) (hvx : st.vtx = some vx) (hps : st.parents = []) :
    pAfter { res := some (), h := h, w := w, ev := ev } =
      { res := some vx.parentIDs
        h := { h with v := some { st with parents := vx.parentIDs } }
        w := w
        ev := ev } := by
  obtain ⟨i, b, v⟩ := h
  obtain ⟨u, vf, vl, vt, s, ps0, txs0⟩ := st
  simp only at hv hvx hps
  subst hv
  subst hvx
  subst hps
  by_cases hnil : vx.parentIDs = []
  · simp [pAfter, UniqueVertex.st, hnil]
  · have hlen : (([] : List ID)).length ≠ vx.parentIDs.length := by
      simpa using fun hz => hnil (List.length_eq_zero.mp hz.symm)
    simp only [pAfter, UniqueVertex.st, Option.getD_some]
    rw [if_neg hlen]

theorem accept_of_unique_ne {h : UniqueVertex} {w : World} {st : VertexState} {vx : Vertex}
    (hv : h.v = some st) (hu : st.unique = true) (hvx : st.vtx = some vx)
    (hps : st.parents = []) (hne : st.status ≠ .Accepted) :
    accept h w =
      { res := some (commitDB (acceptWrite h w vx)).err
        h := { h with v := some { st with status := .Accepted } }
        w := (commitDB (acceptWrite h w vx)).w
        ev := [.refreshCall, .writeStatus h.vtxID .Accepted, .refreshCall,
               .writeEdge (acceptEdgeSet h w vx)] ++ (commitDB (acceptWrite h w vx)).ev } := by
  obtain ⟨i, b, v⟩ := h
  obtain ⟨u, vf, vl, vt, s, ps0, txs0⟩ := st
  simp only at hv hvx hps hu hne
  subst hv
  subst hvx
  subst hps
  subst hu
  have hx := @setStatus_of_unique_ne ⟨i, b, some ⟨true, vf, vl, some vx, s, [], txs0⟩⟩
    w ⟨true, vf, vl, some vx, s, [], txs0⟩ Status.Accepted rfl rfl hne
  simp only [accept, hx]
  rw [refresh_of_unique _ rfl rfl]
  rw [pAfter_of_state rfl rfl rfl]
  simp [acceptWrite, acceptEdgeSet, UniqueVertex.st]

theorem accept_of_unique_eq {h : UniqueVertex} {w : World} {st : VertexState} {vx : Vertex}
    (hv : h.v = some st) (hu : st.unique = true) (hvx : st.vtx = some vx)
    (hps : st.parents = []) (heq : st.status = .Accepted) :
    accept h w =
      { res := some (commitDB (acceptNoop h w vx)).err
        h := h
        w := (commitDB (acceptNoop h w vx)).w
        ev := [.refreshCall, .refreshCall,
               .writeEdge (acceptEdgeSet h w vx)] ++ (commitDB (acceptNoop h w vx)).ev } := by
  obtain ⟨i, b, v⟩ := h
  obtain ⟨u, vf, vl, vt, s, ps0, txs0⟩ := st
  simp only at hv hvx hps hu heq
  subst hv
  subst hvx
  subst hps
  subst hu
  subst heq
  have hx := @setStatus_of_unique_eq ⟨i, b, some ⟨true, vf, vl, some vx, .Accepted, [], txs0⟩⟩
    w ⟨true, vf, vl, some vx, .Accepted, [], txs0⟩ Status.Accepted rfl rfl rfl
  simp only [accept, hx]
  rw [refresh_of_unique _ rfl rfl]
  rw [pAfter_of_state rfl rfl rfl]
  simp [acceptNoop, acceptEdgeSet, UniqueVertex.st]

/-! ### Invariant lemmas and general step specifications -/

theorem Inv_cache {h : UniqueVertex} {w : World} (hInv : Inv h w = true) :
    w.cacheOther h.vtxID = none := by
  simp only [Inv, Bool.and_eq_true, Option.isNone_iff_eq_none] at hInv
  exact hInv.1

theorem Inv_status {h : UniqueVertex} {w : World} {st : VertexState} (hInv : Inv h w = true)
    (hv : h.v = some st) (hu : st.unique = true) :
    st.status = w.storeStatus h.vtxID := by
  simp only [Inv, hv, hu, Bool.and_eq_true, Bool.or_eq_true, Bool.not_eq_true',
    beq_iff_eq] at hInv
  rcases hInv.2 with h2 | h2
  · exact absurd h2 (by simp)
  · exact h2

theorem Inv_of_parts {h : UniqueVertex} {w : World}
    (hv : h.v = some h.st) (hc : w.cacheOther h.vtxID = none)
    (hs : h.st.status = w.storeStatus h.vtxID) : Inv h w = true := by
  simp [Inv, hv, hc, hs]

theorem storeAndUpdateStatus_spec (h : UniqueVertex) (st : VertexState) (w : World)
    (ev : List Event) (hu : st.unique = true) :
    RefreshPost h w (storeAndUpdateStatus h st w ev) := by
  unfold storeAndUpdateStatus RefreshPost
  by_cases hU : w.storeStatus h.vtxID = Status.Unknown
  · rw [if_pos hU]
    refine ⟨rfl, rfl, ?_, ?_, rfl, hu, ?_⟩
    · simp only [UniqueVertex.st, Option.getD_some]
      rw [updSt_same, hU]
      rfl
    · intro j hj
      simp only
      exact updSt_other _ _ hj
    · simp only [UniqueVertex.st, Option.getD_some]
      rw [updSt_same]
  · rw [if_neg hU]
    exact ⟨rfl, rfl, statusLe_refl _, fun j _ => rfl, rfl, hu, rfl⟩

theorem refreshBody_spec (h : UniqueVertex) (st : VertexState) (w : World) (ev : List Event)
    (hst : st.status = w.storeStatus h.vtxID) (hu : st.unique = true) :
    RefreshPost h w (refreshBody h st st.vtx w ev) := by
  rcases hvt : st.vtx with _ | vx
  · rcases hb : h.bytes with _ | b
    · simp only [refreshBody, hvt, hb]
      exact ⟨rfl, rfl, statusLe_refl _, fun j _ => rfl, rfl, hu, hst⟩
    · simp only [refreshBody, hvt, hb]
      rcases hp : w.parseFn b with e | vz
      · exact storeAndUpdateStatus_spec h _ w ev hu
      · exact ⟨rfl, rfl, statusLe_refl _, fun j _ => rfl, rfl, hu, hst⟩
  · simp only [refreshBody, hvt]
    exact ⟨rfl, rfl, statusLe_refl _, fun j _ => rfl, rfl, hu, hst⟩

theorem refreshResolve_spec (h : UniqueVertex) (st : VertexState) (w : World)
    (hc : w.cacheOther h.vtxID = none) :
    RefreshPost h w (refreshResolve h st w) := by
  unfold refreshResolve
  rw [hc]
  exact refreshBody_spec h { st with status := w.storeStatus h.vtxID, unique := true } w _ rfl rfl

theorem refresh_spec (h : UniqueVertex) (w : World) (hInv : Inv h w = true) :
    RefreshPost h w (refresh h w) := by
  have hc := Inv_cache hInv
  rcases hveq : h.v with _ | st
  · simp only [refresh, hveq]
    exact refreshResolve_spec h default w hc
  · by_cases hu : st.unique = true
    · rw [refresh_of_unique w hveq hu]
      refine ⟨rfl, rfl, statusLe_refl _, fun j _ => rfl, ?_, ?_, ?_⟩
      · rw [st_of_v hveq, hveq]
      · rw [st_of_v hveq]
        exact hu
      · rw [st_of_v hveq]
        exact Inv_status hInv hveq hu
    · simp only [refresh, hveq, Bool.not_eq_true] at hu ⊢
      rw [hu]
      simp only [Bool.false_eq_true, if_false]
      exact refreshResolve_spec h st w hc

theorem inv_of_refreshPost {h : UniqueVertex} {w : World} {r : OpRes Unit}
    (hInv : Inv h w = true) (hp : RefreshPost h w r) : Inv r.h r.w = true := by
  obtain ⟨h1, h2, _, _, h5, _, h7⟩ := hp
  refine Inv_of_parts h5 ?_ ?_
  · rw [h1, h2]
    exact Inv_cache hInv
  · rw [h1]
    exact h7

theorem setStatus_spec (s : Status) (h : UniqueVertex) (w : World) (hInv : Inv h w = true)
    (hs : statusLe (w.storeStatus h.vtxID) s = true) :
    RefreshPost h w (setStatus s h w) := by
  obtain ⟨h1, h2, h3, h4, h5, h6, h7⟩ := refresh_spec h w hInv
  unfold setStatus ssAfter
  by_cases he : (refresh h w).h.st.status = s
  · rw [if_pos he]
    exact refresh_spec h w hInv
  · rw [if_neg he]
    refine ⟨h1, h2, ?_, ?_, rfl, h6, ?_⟩
    · simp only
      rw [h1, updSt_same]
      exact hs
    · intro j hj
      simp only
      rw [h1, updSt_other _ _ hj]
      exact h4 j hj
    · simp only [UniqueVertex.st, Option.getD_some]
      rw [h1, updSt_same]

theorem commitDB_storeStatus (w : World) : (commitDB w).w.storeStatus = w.storeStatus := by
  unfold commitDB
  split
  · rfl
  · rfl

theorem commitDB_storeVertex (w : World) : (commitDB w).w.storeVertex = w.storeVertex := by
  unfold commitDB
  split
  · rfl
  · rfl

theorem commitDB_edge (w : World) : (commitDB w).w.edge = w.edge := by
  unfold commitDB
  split
  · rfl
  · rfl

theorem commitDB_edgeDB (w : World) : (commitDB w).w.edgeDB = w.edgeDB := by
  unfold commitDB
  split
  · rfl
  · rfl

theorem commitDB_ok_err {w : World} (hc : w.commits.headD true = true) :
    (commitDB w).err = none := by
  unfold commitDB
  rw [if_pos hc]

theorem commitDB_ok_durStatus {w : World} (hc : w.commits.headD true = true) :
    (commitDB w).w.durStatus = w.storeStatus := by
  unfold commitDB
  rw [if_pos hc]

theorem commitDB_ok_durEdge {w : World} (hc : w.commits.headD true = true) :
    (commitDB w).w.durEdge = w.edgeDB := by
  unfold commitDB
  rw [if_pos hc]

theorem commitDB_ok_ev {w : World} (hc : w.commits.headD true = true) :
    (commitDB w).ev = [.commit true] := by
  unfold commitDB
  rw [if_pos hc]

theorem commitDB_fail_err {w : World} (hc : w.commits.headD true = false) :
    (commitDB w).err = some .commitFailed := by
  unfold commitDB
  rw [hc]
  rfl

theorem commitDB_fail_durStatus {w : World} (hc : w.commits.headD true = false) :
    (commitDB w).w.durStatus = w.durStatus := by
  unfold commitDB
  rw [hc]
  rfl

theorem commitDB_fail_durEdge {w : World} (hc : w.commits.headD true = false) :
    (commitDB w).w.durEdge = w.durEdge := by
  unfold commitDB
  rw [hc]
  rfl

theorem reject_of_unique_ne {h : UniqueVertex} {w : World} {st : VertexState}
    (hv : h.v = some st) (hu : st.unique = true) (hne : st.status ≠ .Rejected) :
    reject h w =
      { res := some (commitDB { w with storeStatus := updSt w.storeStatus h.vtxID .Rejected }).err
        h := { h with v := some { st with status := .Rejected, parents := [] } }
        w := (commitDB { w with storeStatus := updSt w.storeStatus h.vtxID .Rejected }).w
        ev := [.refreshCall, .writeStatus h.vtxID .Rejected] ++
              (commitDB { w with storeStatus := updSt w.storeStatus h.vtxID .Rejected }).ev } := by
  simp only [reject, setStatus_of_unique_ne hv hu hne]
  rfl

theorem reject_of_unique_eq {h : UniqueVertex} {w : World} {st : VertexState}
    (hv : h.v = some st) (hu : st.unique = true) (heq : st.status = .Rejected) :
    reject h w =
      { res := some (commitDB w).err
        h := { h with v := some { st with parents := [] } }
        w := (commitDB w).w
        ev := [.refreshCall] ++ (commitDB w).ev } := by
  obtain ⟨i, b, v⟩ := h
  simp only at hv
  subst hv
  have hx := @setStatus_of_unique_eq ⟨i, b, some st⟩ w st Status.Rejected rfl hu heq
  simp only [reject, hx]
  simp [UniqueVertex.st]

theorem refreshBody_ev_head (h : UniqueVertex) (st : VertexState) (prev : Option Vertex)
    (w : World) (es : List Event) :
    (refreshBody h st prev w (Event.refreshCall :: es)).ev.head? = some Event.refreshCall := by
  unfold refreshBody storeAndUpdateStatus
  split
  · split
    · split <;> simp
    · simp
  · simp
  · simp
  · simp

theorem refresh_ev_head (h : UniqueVertex) (w : World) :
    (refresh h w).ev.head? = some Event.refreshCall := by
  have hres : ∀ st, (refreshResolve h st w).ev.head? = some Event.refreshCall := by
    intro st
    unfold refreshResolve
    split
    · exact refreshBody_ev_head h _ _ w _
    · exact refreshBody_ev_head h _ _ w _
  unfold refresh
  split
  · exact hres default
  · split
    · rfl
    · exact hres _

theorem pAfter_ev (r : OpRes Unit) : (pAfter r).ev = r.ev := by
  unfold pAfter
  split
  · rfl
  · split
    · rfl
    · rfl

theorem bytesOp_ev (h : UniqueVertex) (w : World) : (bytesOp h w).ev = [] := by
  unfold bytesOp
  split
  · rfl
  · split
    · rfl
    · split
      · rfl
      · rfl

theorem verifyOp_ev (h : UniqueVertex) (w : World) : (verifyOp h w).ev = [] := by
  unfold verifyOp
  split
  · rfl
  · split
    · rfl
    · split
      · rfl
      · rfl

theorem commitDB_cacheOther (w : World) : (commitDB w).w.cacheOther = w.cacheOther := by
  unfold commitDB
  split
  · rfl
  · rfl

theorem pAfter_shape {q : OpRes Unit} {st : VertexState} {vx : Vertex}
    (hv : q.h.v = some st) (hvt : st.vtx = some vx) :
    ∃ l ps, pAfter q =
      { res := some ps
        h := { q.h with v := some { st with parents := l } }
        w := q.w
        ev := q.ev } := by
  obtain ⟨res0, qh, qw, qev⟩ := q
  obtain ⟨i, b, v⟩ := qh
  obtain ⟨u, vf, vl, vt, s, ps0, txs0⟩ := st
  simp only at hv hvt
  subst hv
  subst hvt
  unfold pAfter
  simp only [UniqueVertex.st, Option.getD_some]
  by_cases hl : ps0.length = vx.parentIDs.length
  · rw [if_pos hl]
    exact ⟨ps0, ps0, rfl⟩
  · rw [if_neg hl]
    exact ⟨vx.parentIDs, vx.parentIDs, rfl⟩

theorem accept_spec (h : UniqueVertex) (w : World) (hInv : Inv h w = true)
    (hna : w.storeStatus h.vtxID ≠ .Rejected) :
    MonoStep h w (accept h w).h (accept h w).w := by
  have hs : statusLe (w.storeStatus h.vtxID) .Accepted = true := statusLe_accepted_of_ne hna
  obtain ⟨h1, h2, h3, h4, h5, h6, h7⟩ := setStatus_spec .Accepted h w hInv hs
  have hcache : w.cacheOther h.vtxID = none := Inv_cache hInv
  simp only [accept]
  rw [refresh_of_unique _ h5 h6]
  rcases hvt : (setStatus Status.Accepted h w).h.st.vtx with _ | vx
  · simp only [pAfter, hvt]
    refine ⟨h1, ?_, h3⟩
    refine Inv_of_parts h5 ?_ ?_
    · rw [h1, h2]
      exact hcache
    · rw [h1]
      exact h7
  · obtain ⟨l, ps, hpe⟩ :=
      pAfter_shape (q := { res := some ()
                           h := (setStatus Status.Accepted h w).h
                           w := { (setStatus Status.Accepted h w).w with
                                   edge := addId (setStatus Status.Accepted h w).w.edge
                                             (setStatus Status.Accepted h w).h.vtxID }
                           ev := [.refreshCall] }) h5 hvt
    rw [hpe]
    dsimp only
    refine ⟨h1, ?_, ?_⟩
    · refine Inv_of_parts ?_ ?_ ?_
      · simp [UniqueVertex.st]
      · dsimp only
        rw [commitDB_cacheOther]
        dsimp only
        rw [h1, h2]
        exact hcache
      · simp only [UniqueVertex.st, Option.getD_some]
        rw [commitDB_storeStatus]
        dsimp only
        rw [h1]
        exact h7
    · rw [commitDB_storeStatus]
      dsimp only
      exact h3

theorem reject_spec (h : UniqueVertex) (w : World) (hInv : Inv h w = true)
    (hnr : w.storeStatus h.vtxID ≠ .Accepted) :
    MonoStep h w (reject h w).h (reject h w).w := by
  have hs : statusLe (w.storeStatus h.vtxID) .Rejected = true := statusLe_rejected_of_ne hnr
  obtain ⟨h1, h2, h3, h4, h5, h6, h7⟩ := setStatus_spec .Rejected h w hInv hs
  have hcache : w.cacheOther h.vtxID = none := Inv_cache hInv
  simp only [reject]
  refine ⟨h1, ?_, ?_⟩
  · refine Inv_of_parts ?_ ?_ ?_
    · simp [UniqueVertex.st]
    · dsimp only
      rw [commitDB_cacheOther]
      rw [h1, h2]
      exact hcache
    · simp only [UniqueVertex.st, Option.getD_some]
      rw [commitDB_storeStatus]
      rw [h1]
      exact h7
  · rw [commitDB_storeStatus]
    exact h3

theorem step_spec (op : Op) (h : UniqueVertex) (w : World) (hInv : Inv h w = true)
    (hok : okOp (w.storeStatus h.vtxID) op = true) :
    MonoStep h w (step op h w).h (step op h w).w ∧
      (∀ s, (step op h w).res = some (some s) →
        s = (step op h w).w.storeStatus h.vtxID) := by
  cases op with
  | refreshO =>
    obtain ⟨h1, h2, h3, h4, h5, h6, h7⟩ := refresh_spec h w hInv
    refine ⟨⟨h1, inv_of_refreshPost hInv (refresh_spec h w hInv), h3⟩, ?_⟩
    intro s hs
    simp [step] at hs
  | statusO =>
    obtain ⟨h1, h2, h3, h4, h5, h6, h7⟩ := refresh_spec h w hInv
    refine ⟨⟨h1, inv_of_refreshPost hInv (refresh_spec h w hInv), h3⟩, ?_⟩
    intro s hs
    simp only [step, Option.some.injEq] at hs
    rw [← hs]
    exact h7
  | setStatusO s0 =>
    obtain ⟨h1, h2, h3, h4, h5, h6, h7⟩ := setStatus_spec s0 h w hInv hok
    refine ⟨⟨h1, inv_of_refreshPost hInv (setStatus_spec s0 h w hInv hok), h3⟩, ?_⟩
    intro s hs
    simp [step] at hs
  | acceptO =>
    have hna : w.storeStatus h.vtxID ≠ .Rejected := by
      simpa [okOp, bne_iff_ne] using hok
    refine ⟨accept_spec h w hInv hna, ?_⟩
    intro s hs
    rcases hres : (accept h w).res with _ | e <;> simp [step, hres] at hs
  | rejectO =>
    have hnr : w.storeStatus h.vtxID ≠ .Accepted := by
      simpa [okOp, bne_iff_ne] using hok
    refine ⟨reject_spec h w hInv hnr, ?_⟩
    intro s hs
    rcases hres : (reject h w).res with _ | e <;> simp [step, hres] at hs

/-- Claim C1 (amended): over any sequence of the operations `refresh`,
`setStatus`, `Accept`, `Reject`, `Status` on a well-formed handle
(`Inv`: no competing cache entry, in-memory status of a unique state
agrees with the store), *provided* `Accept` is never invoked while the
stored status is `Rejected`, `Reject` never while `Accepted`, and
`setStatus` only with a status at least the stored one (`OkTrace`), the
statuses observed by `Status()` are pairwise ordered by the lifecycle
order `statusLe` (`Unknown` before `Processing` before a terminal state,
terminals only repeating themselves): the observed sequence never reverts
and never crosses between `Accepted` and `Rejected`.  The proviso is
necessary: without it `Accept` overwrites a `Rejected` status with
`Accepted` (see the counterexample). -/
theorem c1_status_monotone (ops : List Op) (h : UniqueVertex) (w : World)
    (hInv : Inv h w = true) (hOk : OkTrace h w ops) :
    List.Chain' (fun a b => statusLe a b = true) (run ops h w) ∧
      (∀ s, (run ops h w).head? = some s →
        statusLe (w.storeStatus h.vtxID) s = true) := by
  induction ops generalizing h w with
  | nil => simp [run]
  | cons op ops ih =>
    cases hOk with
    | cons hok hrest =>
      obtain ⟨⟨hid, hinv2, hle⟩, hobs⟩ := step_spec op h w hInv hok
      have ih2 := ih (step op h w).h (step op h w).w hinv2 hrest
      rcases hres : (step op h w).res with _ | os
      · simp [run, hres]
      · rcases os with _ | s
        · rw [show run (op :: ops) h w = run ops (step op h w).h (step op h w).w from by
            simp [run, hres]]
          refine ⟨ih2.1, ?_⟩
          intro s hhead
          have hb := ih2.2 s hhead
          rw [hid] at hb
          exact statusLe_trans hle hb
        · have hseq : s = (step op h w).w.storeStatus h.vtxID := hobs s hres
          rw [show run (op :: ops) h w = s :: run ops (step op h w).h (step op h w).w from by
            simp [run, hres]]
          constructor
          · rw [List.chain'_cons']
            refine ⟨?_, ih2.1⟩
            intro y hy
            have hb := ih2.2 y hy
            rw [hid] at hb
            rw [hseq]
            exact hb
          · intro s' hhead
            simp only [List.head?_cons, Option.some.injEq] at hhead
            rw [← hhead, hseq]
            exact hle

/-! ### Claims -/

/-- Claim C1 counterexample: the claim as stated (monotone over *any*
operation sequence) is false.  On a handle whose status is `Rejected`,
the sequence `Status(); Accept(); Status()` observes `Rejected` followed
by `Accepted`: `setStatus` has no terminal-state guard, so `Accept`
overwrites the `Rejected` decision. -/
theorem c1_rejected_then_accepted_cex :
    run [Op.statusO, Op.acceptO, Op.statusO] hR1 wR1 = [Status.Rejected, Status.Accepted] ∧
      statusLe Status.Rejected Status.Accepted = false := by
  decide

/-- Witness for C1: a Processing handle observed, accepted and observed
again; the trace satisfies the proviso and the observed statuses are
monotone. -/
theorem c1_status_monotone_witness :
    Inv hW1 wW1 = true ∧ OkTrace hW1 wW1 opsW1 ∧
      List.Chain' (fun a b => statusLe a b = true) (run opsW1 hW1 wW1) := by
  have hok : OkTrace hW1 wW1 opsW1 :=
    OkTrace.cons (by decide) (OkTrace.cons (by decide)
      (OkTrace.cons (by decide) (OkTrace.nil _ _)))
  exact ⟨by decide, hok, (c1_status_monotone opsW1 hW1 wW1 (by decide) hok).1⟩

/-- Claim C2 counterexample: `Accept` on a `Rejected` handle does *not*
return an error — it returns the commit result (`nil`) and silently
overwrites the stored status with `Accepted`. -/
theorem c2_accept_on_rejected_cex :
    (accept hR2 wR2).res = some none ∧
      (accept hR2 wR2).h.st.status = Status.Accepted ∧
      (accept hR2 wR2).w.storeStatus 8 = Status.Accepted := by
  decide

/-- Claim C2 (amended): `Accept` on a `Rejected` handle (and `Reject` on
an `Accepted` one) reports no conflict: when the commit succeeds it
returns `nil` and the conflicting terminal decision is applied by
overwriting the stored status, both in memory and in the store's pending
view. -/
theorem c2_conflict_overwrites :
    (∀ (h : UniqueVertex) (w : World) (st : VertexState) (vx : Vertex),
        h.v = some st → st.unique = true → st.vtx = some vx → st.parents = [] →
        st.status = Status.Rejected → w.commits.headD true = true →
        (accept h w).res = some none ∧
          (accept h w).h.st.status = Status.Accepted ∧
          (accept h w).w.storeStatus h.vtxID = Status.Accepted) ∧
    (∀ (h : UniqueVertex) (w : World) (st : VertexState),
        h.v = some st → st.unique = true → st.status = Status.Accepted →
        w.commits.headD true = true →
        (reject h w).res = some none ∧
          (reject h w).h.st.status = Status.Rejected ∧
          (reject h w).w.storeStatus h.vtxID = Status.Rejected) := by
  constructor
  · intro h w st vx hv hu hvx hps hst hc
    have hne : st.status ≠ Status.Accepted := by
      rw [hst]
      decide
    rw [accept_of_unique_ne hv hu hvx hps hne]
    refine ⟨?_, ?_, ?_⟩
    · dsimp only
      rw [@commitDB_ok_err (acceptWrite h w vx) hc]
    · simp [UniqueVertex.st]
    · dsimp only
      rw [commitDB_storeStatus]
      simp [acceptWrite, updSt_same]
  · intro h w st hv hu hst hc
    have hne : st.status ≠ Status.Rejected := by
      rw [hst]
      decide
    rw [reject_of_unique_ne hv hu hne]
    refine ⟨?_, ?_, ?_⟩
    · dsimp only
      rw [@commitDB_ok_err { w with storeStatus := updSt w.storeStatus h.vtxID .Rejected } hc]
    · simp [UniqueVertex.st]
    · dsimp only
      rw [commitDB_storeStatus]
      simp [updSt_same]

/-- Witness for C2 (amended), at a `Rejected` handle (ID 5) and an
`Accepted` handle (ID 7). -/
theorem c2_conflict_overwrites_witness :
    ((accept hR1 wR1).res = some none ∧
      (accept hR1 wR1).h.st.status = Status.Accepted ∧
      (accept hR1 wR1).w.storeStatus hR1.vtxID = Status.Accepted) ∧
    ((reject hA1 wA1).res = some none ∧
      (reject hA1 wA1).h.st.status = Status.Rejected ∧
      (reject hA1 wA1).w.storeStatus hA1.vtxID = Status.Rejected) :=
  ⟨c2_conflict_overwrites.1 hR1 wR1 _ Vertex.empty rfl rfl rfl rfl rfl rfl,
   c2_conflict_overwrites.2 hA1 wA1 _ rfl rfl rfl rfl⟩

/-- Claim C3: the parse branch of `refresh` tests `err != nil` with the
store/advance logic under the *error* test and the placeholder/cache
logic under the *success* test — exactly inverted with respect to the
spec (and to the source's own debug prints and the "Assumes
vtx.v.vtx != nil" comment).  Evaluated at the failing inputs: with
well-formed bytes (ID 11) the parsed body is discarded in favour of the
empty placeholder, `verified` is set with a `nil` cached error, and
nothing is persisted (status stays `Unknown`); with malformed bytes
(ID 12) the nil parsed vertex is persisted, overwriting the stored body,
the status is advanced to `Processing`, and the parse error is *not*
recorded (`verified` stays false).  A later `Verify` on the well-formed
handle returns the cached `nil` validity. -/
theorem c3_refresh_parse_branches_swapped :
    ((refresh h3g w3).h.st.vtx = some Vertex.empty ∧
      (refresh h3g w3).h.st.verified = true ∧
      (refresh h3g w3).h.st.validity = none ∧
      (refresh h3g w3).w.storeVertex 11 = none ∧
      (refresh h3g w3).w.storeStatus 11 = Status.Unknown ∧
      (verifyOp (refresh h3g w3).h (refresh h3g w3).w).res = some none) ∧
    ((refresh h3b w3).h.st.vtx = none ∧
      (refresh h3b w3).h.st.verified = false ∧
      (refresh h3b w3).h.st.validity = none ∧
      (refresh h3b w3).w.storeVertex 12 = none ∧
      (refresh h3b w3).w.storeStatus 12 = Status.Processing) := by
  decide

/-- Claim C8: the eviction hook returns successfully having performed no
I/O (`ev = []`, world unchanged) and having changed nothing on the handle
except setting the canonical (`unique`) flag of an existing state to
`false`: ID, bytes, and every other state field (`verified`, `validity`,
`vtx`, `status`, `parents`, `txs`) are untouched. -/
theorem c8_evict_frame (h : UniqueVertex) (w : World) :
    (evictOp h w).res = some () ∧
      (evictOp h w).ev = [] ∧
      (evictOp h w).w = w ∧
      (evictOp h w).h.vtxID = h.vtxID ∧
      (evictOp h w).h.bytes = h.bytes ∧
      (evictOp h w).h.v = h.v.map (fun st => { st with unique := false }) :=
  ⟨rfl, rfl, rfl, rfl, rfl, rfl⟩

/-- Claim C9 counterexample: `Bytes()` and `Verify()` do *not* invoke
`refresh` — their event logs are empty — and `Verify()` on a
never-refreshed handle (nil state) panics, which `refresh` would have
prevented; `Status()` by contrast refreshes first. -/
theorem c9_bytes_verify_no_refresh_cex :
    (bytesOp hB emptyWorld).ev = [] ∧
      (verifyOp hB emptyWorld).ev = [] ∧
      (verifyOp hB emptyWorld).res = none ∧
      (statusOp hB emptyWorld).ev.head? = some Event.refreshCall := by
  decide

/-- Claim C9 (amended): `Status()`, `Parents()`, `Height()` and `Txs()`
each invoke `refresh()` before anything else (their event log starts with
the refresh marker), but `Bytes()` and `Verify()` do not invoke
`refresh` at all (their event logs never contain it): the claim's list of
refreshing accessors must exclude `Bytes` and `Verify`. -/
theorem c9_accessor_refresh_discipline (h : UniqueVertex) (w : World) :
    (statusOp h w).ev.head? = some Event.refreshCall ∧
      (parentsOp h w).ev.head? = some Event.refreshCall ∧
      (heightOp h w).ev.head? = some Event.refreshCall ∧
      (txsOp h w).ev.head? = some Event.refreshCall ∧
      Event.refreshCall ∉ (bytesOp h w).ev ∧
      Event.refreshCall ∉ (verifyOp h w).ev := by
  refine ⟨?_, ?_, ?_, ?_, ?_, ?_⟩
  · exact refresh_ev_head h w
  · rw [show (parentsOp h w).ev = (refresh h w).ev from pAfter_ev _]
    exact refresh_ev_head h w
  · simp only [heightOp]
    split
    · exact refresh_ev_head h w
    · exact refresh_ev_head h w
  · simp only [txsOp]
    split
    · exact refresh_ev_head h w
    · split
      · exact refresh_ev_head h w
      · exact refresh_ev_head h w
  · rw [bytesOp_ev]
    simp
  · rw [verifyOp_ev]
    simp

/-- Claim C10: after the initial `refresh`, if the handle's in-memory
status already equals the requested status then `setStatus` is exactly
`refresh` — no store write, no state change beyond it; and in general the
events of `setStatus` are the refresh events followed by a status write
exactly when the post-refresh in-memory status differs from the requested
one. -/
theorem c10_setStatus_frame (s : Status) (h : UniqueVertex) (w : World) :
    ((refresh h w).h.st.status = s → setStatus s h w = refresh h w) ∧
      (setStatus s h w).ev =
        (refresh h w).ev ++
          (if (refresh h w).h.st.status = s then []
           else [Event.writeStatus (refresh h w).h.vtxID s]) := by
  constructor
  · intro he
    simp [setStatus, ssAfter, he]
  · by_cases he : (refresh h w).h.st.status = s
    · simp [setStatus, ssAfter, he]
    · simp [setStatus, ssAfter, he]

/-- Witness for C10 at a Processing handle asked to set `Processing`. -/
theorem c10_setStatus_frame_witness :
    (refresh hT wT).h.st.status = Status.Processing ∧
      setStatus Status.Processing hT wT = refresh hT wT :=
  ⟨by decide, (c10_setStatus_frame Status.Processing hT wT).1 (by decide)⟩

theorem mem_acceptEdgeSet {h : UniqueVertex} {w : World} {vx : Vertex} {j : ID} :
    j ∈ acceptEdgeSet h w vx ↔ ((j ∈ w.edge ∨ j = h.vtxID) ∧ j ∉ vx.parentIDs) := by
  simp [acceptEdgeSet, mem_foldl_removeId, mem_addId]

/-- Claim C4: `Accept` on a handle with a known body sets the status to
Accepted (in memory, in the store's pending view, and — the commit
succeeding — durably), adds the handle's ID to the frontier and removes
every immediate parent ID from it, persists the frontier (`edgeDB`,
durable after the commit), clears the cached parent handles, and leaves
the stored status of every other ID unchanged.  The hypothesis `hacc`
covers the already-Accepted no-op case, where no fresh status write is
issued. -/
theorem c4_accept_updates_frontier (h : UniqueVertex) (w : World) (st : VertexState)
    (vx : Vertex) (hv : h.v = some st) (hu : st.unique = true) (hvx : st.vtx = some vx)
    (hps : st.parents = [])
    (hacc : st.status = Status.Accepted → w.storeStatus h.vtxID = Status.Accepted)
    (hc : w.commits.headD true = true) :
    (accept h w).res = some none ∧
      (accept h w).h.st.status = Status.Accepted ∧
      (accept h w).h.st.parents = [] ∧
      (accept h w).w.storeStatus h.vtxID = Status.Accepted ∧
      (accept h w).w.durStatus h.vtxID = Status.Accepted ∧
      (∀ j, j ≠ h.vtxID → (accept h w).w.storeStatus j = w.storeStatus j) ∧
      (∀ j, j ∈ (accept h w).w.edge ↔ ((j ∈ w.edge ∨ j = h.vtxID) ∧ j ∉ vx.parentIDs)) ∧
      (accept h w).w.edgeDB = (accept h w).w.edge ∧
      (accept h w).w.durEdge = (accept h w).w.edge := by
  by_cases heq : st.status = Status.Accepted
  · rw [accept_of_unique_eq hv hu hvx hps heq]
    refine ⟨?_, ?_, ?_, ?_, ?_, ?_, ?_, ?_, ?_⟩
    · dsimp only
      rw [@commitDB_ok_err (acceptNoop h w vx) hc]
    · rw [st_of_v hv]
      exact heq
    · rw [st_of_v hv]
      exact hps
    · dsimp only
      rw [commitDB_storeStatus]
      exact hacc heq
    · dsimp only
      rw [@commitDB_ok_durStatus (acceptNoop h w vx) hc]
      exact hacc heq
    · intro j hj
      dsimp only
      rw [commitDB_storeStatus]
      rfl
    · intro j
      dsimp only
      rw [commitDB_edge]
      exact mem_acceptEdgeSet
    · dsimp only
      rw [commitDB_edgeDB, commitDB_edge]
      rfl
    · dsimp only
      rw [@commitDB_ok_durEdge (acceptNoop h w vx) hc, commitDB_edge]
      rfl
  · rw [accept_of_unique_ne hv hu hvx hps heq]
    refine ⟨?_, ?_, ?_, ?_, ?_, ?_, ?_, ?_, ?_⟩
    · dsimp only
      rw [@commitDB_ok_err (acceptWrite h w vx) hc]
    · simp [UniqueVertex.st]
    · simp [UniqueVertex.st, hps]
    · dsimp only
      rw [commitDB_storeStatus]
      simp [acceptWrite, updSt]
    · dsimp only
      rw [@commitDB_ok_durStatus (acceptWrite h w vx) hc]
      simp [acceptWrite, updSt]
    · intro j hj
      dsimp only
      rw [commitDB_storeStatus]
      simp [acceptWrite, updSt, hj]
    · intro j
      dsimp only
      rw [commitDB_edge]
      exact mem_acceptEdgeSet
    · dsimp only
      rw [commitDB_edgeDB, commitDB_edge]
      rfl
    · dsimp only
      rw [@commitDB_ok_durEdge (acceptWrite h w vx) hc, commitDB_edge]
      rfl

/-- Witness for C4, the spec's scenario: V (ID 2) with parents A = 0 and
B = 1 both Accepted and frontier `{A, B}`; after `V.Accept()` the
frontier equals `{V}`, the parents' statuses are unchanged. -/
theorem c4_accept_updates_frontier_witness :
    stV.status = Status.Processing ∧ wV.edge = [0, 1] ∧ vxV.parentIDs = [0, 1] ∧
      (accept hV wV).w.edge = [2] ∧
      ((accept hV wV).res = some none ∧
        (accept hV wV).h.st.status = Status.Accepted ∧
        (accept hV wV).h.st.parents = [] ∧
        (accept hV wV).w.storeStatus hV.vtxID = Status.Accepted ∧
        (accept hV wV).w.durStatus hV.vtxID = Status.Accepted ∧
        (∀ j, j ≠ hV.vtxID → (accept hV wV).w.storeStatus j = wV.storeStatus j) ∧
        (∀ j, j ∈ (accept hV wV).w.edge ↔
          ((j ∈ wV.edge ∨ j = hV.vtxID) ∧ j ∉ vxV.parentIDs)) ∧
        (accept hV wV).w.edgeDB = (accept hV wV).w.edge ∧
        (accept hV wV).w.durEdge = (accept hV wV).w.edge) :=
  ⟨rfl, rfl, rfl, by decide,
    c4_accept_updates_frontier hV wV stV vxV rfl rfl rfl rfl (by decide) (by decide)⟩

/-- Claim C5 counterexample: after a completed `Accept` — and likewise
after a completed `Reject` — the cached parent list is cleared, but a
subsequent `Parents()` re-materializes the parent handles from the
unchanged body and returns them — not an empty sequence as the claim
states. -/
theorem c5_parents_repopulated_cex :
    ((accept hV wV).res = some none ∧
      (accept hV wV).h.st.parents = [] ∧
      (parentsOp (accept hV wV).h (accept hV wV).w).res = some [0, 1]) ∧
    ((reject hV wV).res = some none ∧
      (reject hV wV).h.st.parents = [] ∧
      (parentsOp (reject hV wV).h (reject hV wV).w).res = some [0, 1]) ∧
    some [0, 1] ≠ some ([] : List ID) := by
  decide

/-- Claim C5 (amended): after `Accept` or `Reject` completes, the cached
parent-handle list is cleared and the persisted body (and the in-memory
body) is unchanged, but the clearing is not permanent: the next
`Parents()` call re-populates the cache from the body's parent IDs and
returns them, not an empty sequence. -/
theorem c5_parents_cleared_then_repopulated :
    (∀ (h : UniqueVertex) (w : World) (st : VertexState) (vx : Vertex),
        h.v = some st → st.unique = true → st.vtx = some vx → st.parents = [] →
        (accept h w).h.st.parents = [] ∧
          (accept h w).h.st.vtx = some vx ∧
          (parentsOp (accept h w).h (accept h w).w).res = some vx.parentIDs ∧
          (accept h w).w.storeVertex = w.storeVertex) ∧
    (∀ (h : UniqueVertex) (w : World) (st : VertexState) (vx : Vertex),
        h.v = some st → st.unique = true → st.vtx = some vx →
        (reject h w).h.st.parents = [] ∧
          (reject h w).h.st.vtx = some vx ∧
          (parentsOp (reject h w).h (reject h w).w).res = some vx.parentIDs ∧
          (reject h w).w.storeVertex = w.storeVertex) := by
  constructor
  · intro h w st vx hv hu hvx hps
    by_cases heq : st.status = Status.Accepted
    · rw [accept_of_unique_eq hv hu hvx hps heq]
      refine ⟨?_, ?_, ?_, ?_⟩
      · rw [st_of_v hv]
        exact hps
      · rw [st_of_v hv]
        exact hvx
      · unfold parentsOp
        rw [refresh_of_unique _ hv hu]
        rw [pAfter_of_state hv hvx hps]
      · dsimp only
        rw [commitDB_storeVertex]
        rfl
    · rw [accept_of_unique_ne hv hu hvx hps heq]
      refine ⟨?_, ?_, ?_, ?_⟩
      · simp [UniqueVertex.st, hps]
      · simp [UniqueVertex.st, hvx]
      · unfold parentsOp
        rw [refresh_of_unique _ rfl
          (show ({ st with status := Status.Accepted } : VertexState).unique = true from hu)]
        rw [pAfter_of_state rfl
          (show ({ st with status := Status.Accepted } : VertexState).vtx = some vx from hvx)
          (show ({ st with status := Status.Accepted } : VertexState).parents = [] from hps)]
      · dsimp only
        rw [commitDB_storeVertex]
        rfl
  · intro h w st vx hv hu hvx
    by_cases heq : st.status = Status.Rejected
    · rw [reject_of_unique_eq hv hu heq]
      refine ⟨?_, ?_, ?_, ?_⟩
      · simp [UniqueVertex.st]
      · simp [UniqueVertex.st, hvx]
      · unfold parentsOp
        rw [refresh_of_unique _ rfl
          (show ({ st with parents := [] } : VertexState).unique = true from hu)]
        rw [pAfter_of_state rfl
          (show ({ st with parents := [] } : VertexState).vtx = some vx from hvx)
          (show ({ st with parents := [] } : VertexState).parents = [] from rfl)]
      · dsimp only
        rw [commitDB_storeVertex]
    · rw [reject_of_unique_ne hv hu heq]
      refine ⟨?_, ?_, ?_, ?_⟩
      · simp [UniqueVertex.st]
      · simp [UniqueVertex.st, hvx]
      · unfold parentsOp
        rw [refresh_of_unique _ rfl
          (show ({ st with status := Status.Rejected, parents := [] } : VertexState).unique = true
            from hu)]
        rw [pAfter_of_state rfl
          (show ({ st with status := Status.Rejected, parents := [] } : VertexState).vtx = some vx
            from hvx)
          (show ({ st with status := Status.Rejected, parents := [] } : VertexState).parents = []
            from rfl)]
      · dsimp only
        rw [commitDB_storeVertex]

/-- Witness for C5 (amended): the scenario handle V, decided once by
`Accept` and once by `Reject`. -/
theorem c5_parents_cleared_then_repopulated_witness :
    vxV.parentIDs = [0, 1] ∧
      ((accept hV wV).h.st.parents = [] ∧
        (accept hV wV).h.st.vtx = some vxV ∧
        (parentsOp (accept hV wV).h (accept hV wV).w).res = some vxV.parentIDs ∧
        (accept hV wV).w.storeVertex = wV.storeVertex) ∧
      ((reject hV wV).h.st.parents = [] ∧
        (reject hV wV).h.st.vtx = some vxV ∧
        (parentsOp (reject hV wV).h (reject hV wV).w).res = some vxV.parentIDs ∧
        (reject hV wV).w.storeVertex = wV.storeVertex) :=
  ⟨rfl, c5_parents_cleared_then_repopulated.1 hV wV stV vxV rfl rfl rfl rfl,
    c5_parents_cleared_then_repopulated.2 hV wV stV vxV rfl rfl rfl⟩

/-- Claim C6 counterexample: when the commit fails during `Accept`, the
failure *is* returned, but the in-memory status (Accepted) and in-memory
frontier (`{2}`) are left diverged from the durable store (still Unknown,
frontier empty) — the decision is not rolled back. -/
theorem c6_commit_failure_divergence_cex :
    (accept hV wVF).res = some (some Err.commitFailed) ∧
      (accept hV wVF).h.st.status = Status.Accepted ∧
      (accept hV wVF).w.durStatus 2 = Status.Unknown ∧
      (accept hV wVF).h.st.status ≠ (accept hV wVF).w.durStatus 2 ∧
      (accept hV wVF).w.edge = [2] ∧
      (accept hV wVF).w.durEdge = [] := by
  decide

/-- Claim C6 (amended): a failed commit during `Accept` or `Reject` is
returned to the caller, but the decision is *not* all-or-nothing: the
in-memory status, the in-memory frontier and the store's pending view
remain advanced while the durable snapshot is untouched, leaving them
diverged. -/
theorem c6_commit_failure_reported_but_diverges :
    (∀ (h : UniqueVertex) (w : World) (st : VertexState) (vx : Vertex),
        h.v = some st → st.unique = true → st.vtx = some vx → st.parents = [] →
        st.status ≠ Status.Accepted → w.commits.headD true = false →
        (accept h w).res = some (some Err.commitFailed) ∧
          (accept h w).h.st.status = Status.Accepted ∧
          (accept h w).w.storeStatus h.vtxID = Status.Accepted ∧
          (accept h w).w.edge = acceptEdgeSet h w vx ∧
          (accept h w).w.durStatus = w.durStatus ∧
          (accept h w).w.durEdge = w.durEdge) ∧
    (∀ (h : UniqueVertex) (w : World) (st : VertexState),
        h.v = some st → st.unique = true → st.status ≠ Status.Rejected →
        w.commits.headD true = false →
        (reject h w).res = some (some Err.commitFailed) ∧
          (reject h w).h.st.status = Status.Rejected ∧
          (reject h w).w.storeStatus h.vtxID = Status.Rejected ∧
          (reject h w).w.durStatus = w.durStatus) := by
  constructor
  · intro h w st vx hv hu hvx hps hne hc
    rw [accept_of_unique_ne hv hu hvx hps hne]
    refine ⟨?_, ?_, ?_, ?_, ?_, ?_⟩
    · dsimp only
      rw [@commitDB_fail_err (acceptWrite h w vx) hc]
    · simp [UniqueVertex.st]
    · dsimp only
      rw [commitDB_storeStatus]
      simp [acceptWrite, updSt]
    · dsimp only
      rw [commitDB_edge]
      rfl
    · dsimp only
      rw [@commitDB_fail_durStatus (acceptWrite h w vx) hc]
      rfl
    · dsimp only
      rw [@commitDB_fail_durEdge (acceptWrite h w vx) hc]
      rfl
  · intro h w st hv hu hne hc
    rw [reject_of_unique_ne hv hu hne]
    refine ⟨?_, ?_, ?_, ?_⟩
    · dsimp only
      rw [@commitDB_fail_err { w with storeStatus := updSt w.storeStatus h.vtxID .Rejected } hc]
    · simp [UniqueVertex.st]
    · dsimp only
      rw [commitDB_storeStatus]
      simp [updSt]
    · dsimp only
      rw [@commitDB_fail_durStatus { w with storeStatus := updSt w.storeStatus h.vtxID .Rejected } hc]

/-- Witness for C6 (amended): an `Accept` on the scenario handle and a
`Reject` on an Accepted handle, both against a failing commit. -/
theorem c6_commit_failure_reported_but_diverges_witness :
    ((accept hV wVF).res = some (some Err.commitFailed) ∧
      (accept hV wVF).h.st.status = Status.Accepted ∧
      (accept hV wVF).w.storeStatus hV.vtxID = Status.Accepted ∧
      (accept hV wVF).w.edge = acceptEdgeSet hV wVF vxV ∧
      (accept hV wVF).w.durStatus = wVF.durStatus ∧
      (accept hV wVF).w.durEdge = wVF.durEdge) ∧
    ((reject hA1 wA1F).res = some (some Err.commitFailed) ∧
      (reject hA1 wA1F).h.st.status = Status.Rejected ∧
      (reject hA1 wA1F).w.storeStatus hA1.vtxID = Status.Rejected ∧
      (reject hA1 wA1F).w.durStatus = wA1F.durStatus) :=
  ⟨c6_commit_failure_reported_but_diverges.1 hV wVF stV vxV rfl rfl rfl rfl
      (by decide) (by decide),
   c6_commit_failure_reported_but_diverges.2 hA1 wA1F _ rfl rfl (by decide) (by decide)⟩

/-- Claim C7: `Accept` on an already-Accepted handle whose decision has
been applied (own ID in the frontier, parents already removed) is an
observable no-op returning success: no status write is issued, and the
stored statuses, the frontier, and the persisted frontier are identical
to their values after the first `Accept`. -/
theorem c7_accept_idempotent (h : UniqueVertex) (w : World) (st : VertexState) (vx : Vertex)
    (hv : h.v = some st) (hu : st.unique = true) (hvx : st.vtx = some vx)
    (hps : st.parents = []) (hst : st.status = Status.Accepted)
    (hmem : h.vtxID ∈ w.edge) (hpar : ∀ p ∈ vx.parentIDs, p ∉ w.edge)
    (hc : w.commits.headD true = true) :
    (accept h w).res = some none ∧
      (accept h w).h.st.status = Status.Accepted ∧
      (accept h w).w.storeStatus = w.storeStatus ∧
      (accept h w).w.edge = w.edge ∧
      (accept h w).w.edgeDB = w.edge ∧
      (∀ i s, Event.writeStatus i s ∉ (accept h w).ev) := by
  have hE : acceptEdgeSet h w vx = w.edge := by
    unfold acceptEdgeSet
    rw [addId_of_mem hmem]
    exact foldl_removeId_of_disjoint hpar
  rw [accept_of_unique_eq hv hu hvx hps hst]
  refine ⟨?_, ?_, ?_, ?_, ?_, ?_⟩
  · dsimp only
    rw [@commitDB_ok_err (acceptNoop h w vx) hc]
  · rw [st_of_v hv]
    exact hst
  · dsimp only
    rw [commitDB_storeStatus]
    rfl
  · dsimp only
    rw [commitDB_edge]
    exact hE
  · dsimp only
    rw [commitDB_edgeDB]
    exact hE
  · intro i s
    dsimp only
    rw [@commitDB_ok_ev (acceptNoop h w vx) hc]
    simp

/-- Witness for C7: a second `Accept` on V right after its first
`Accept` (status Accepted everywhere, frontier `{V}`). -/
theorem c7_accept_idempotent_witness :
    hV2.st.status = Status.Accepted ∧ wV2.edge = [2] ∧
      ((accept hV2 wV2).res = some none ∧
        (accept hV2 wV2).h.st.status = Status.Accepted ∧
        (accept hV2 wV2).w.storeStatus = wV2.storeStatus ∧
        (accept hV2 wV2).w.edge = wV2.edge ∧
        (accept hV2 wV2).w.edgeDB = wV2.edge ∧
        (∀ i s, Event.writeStatus i s ∉ (accept hV2 wV2).ev)) :=
  ⟨rfl, rfl,
    c7_accept_idempotent hV2 wV2 _ vxV rfl rfl rfl rfl rfl (by decide) (by decide) (by decide)⟩

end VertexStore
